import Mathlib

/-!
Verification development for the Reloj clock application.

The repository consists of a Next.js frontend (under `frontend/`, plus
`lib/api.ts`, `lib/timezone-map.ts`, the stopwatch context and the alarm
context) and a Python/FastAPI backend whose circular-doubly-linked-list
(CDLL) core is described by the project documentation but whose sources
are not part of this tree.  Frontend behaviour is embedded directly from
the TypeScript sources; the CDLL core and the backend services built on
it are modelled from the specification, as indicated by the doc comments
of the corresponding definitions.

Times are embedded as integers (JavaScript millisecond values), strings
as Lean `String`s, and the React component state as explicit records with
pure transition functions.
-/

namespace Reloj

/-! ## Domain records (lib/api.ts interfaces) -/

/-- Alarm record as declared in `lib/api.ts`. -/
structure Alarm where
  id : Nat
  time : String
  label : String
  enabled : Bool
  days : List String
  created_at : String
deriving DecidableEq

/-- Frontend stopwatch `Lap` record from `contexts/stopwatch-context.tsx`:
`time` is the running clock (total) at the moment the lap was taken and
`lapTime` the delta to the previous lap, both in milliseconds. -/
structure Lap where
  id : Nat
  time : Int
  lapTime : Int
deriving DecidableEq

/-- FavoriteTimezone record as declared in `lib/api.ts`. -/
structure FavoriteTimezone where
  id : String
  country : String
  city : String
  offset : String
  order : Int
deriving DecidableEq

/-! ## Circular doubly linked list core -/

/-- Modelled from the spec: the backend file
`app/data_structures/circular_doubly_linked_list.py` is not in the tree.
A list state is represented by its enumeration `elems` in ring order
starting from the head (`get_all()` order); nodes are identified with
their positions `0 .. count-1` in that enumeration, and the `next` /
`previous` links are the index maps `nextPos` / `prevPos` below. -/
structure CDLL (α : Type) where
  elems : List α
deriving DecidableEq

/-- Modelled from the spec: `size()` is the stored `count`, which equals
the number of nodes of the ring. -/
def CDLL.size {α : Type} (l : CDLL α) : Nat :=
  l.elems.length

/-- Modelled from the spec: `is_empty()`. -/
def CDLL.isEmpty {α : Type} (l : CDLL α) : Bool :=
  l.elems.isEmpty

/-- Modelled from the spec: `get_all()` enumerates the payloads in ring
order starting from the head. -/
def CDLL.getAll {α : Type} (l : CDLL α) : List α :=
  l.elems

/-- Modelled from the spec: the `next` link of the node at position `i`
of a ring of `n` nodes leads to position `(i+1) mod n`. -/
def nextPos (n i : Nat) : Nat :=
  (i + 1) % n

/-- Modelled from the spec: the `previous` link of the node at position
`i` of a ring of `n` nodes leads to position `(i+n-1) mod n`. -/
def prevPos (n i : Nat) : Nat :=
  (i + n - 1) % n

/-- Modelled from the spec: `insert_at_beginning(value)` makes the new
node the head; the former nodes follow it in their previous order. -/
def CDLL.insertAtBeginning {α : Type} (l : CDLL α) (v : α) : CDLL α :=
  ⟨v :: l.elems⟩

/-- Modelled from the spec: `insert_at_end(value)` inserts immediately
before the current head, i.e. at the last position of the enumeration,
leaving the head unchanged. -/
def CDLL.insertAtEnd {α : Type} (l : CDLL α) (v : α) : CDLL α :=
  ⟨l.elems ++ [v]⟩

/-- Modelled from the spec: the walk of `insert_sorted(value, key_fn)`,
which inserts the new value immediately before the first existing
element whose key is greater, so that elements with equal keys keep
FIFO order (the spec's stable tie-break). -/
def insertSortedList {α : Type} (key : α → Nat) (v : α) : List α → List α
  | [] => [v]
  | x :: xs =>
    if key v < key x then v :: x :: xs
    else x :: insertSortedList key v xs

/-- Modelled from the spec: `insert_sorted(value, key_fn, compare)` with
a numeric key. -/
def CDLL.insertSorted {α : Type} (l : CDLL α) (key : α → Nat) (v : α) : CDLL α :=
  ⟨insertSortedList key v l.elems⟩

/-- Modelled from the spec: `delete(predicate)` removes the first node
whose payload matches, relinking its neighbours, and reports whether a
removal occurred; a miss or an empty list is a no-op reporting `false`. -/
def deleteList {α : Type} (p : α → Bool) : List α → Bool × List α
  | [] => (false, [])
  | x :: xs =>
    if p x then (true, xs)
    else
      let r := deleteList p xs
      (r.1, x :: r.2)

/-- Modelled from the spec: `delete(predicate)` on the list state. -/
def CDLL.delete {α : Type} (l : CDLL α) (p : α → Bool) : Bool × CDLL α :=
  let r := deleteList p l.elems
  (r.1, ⟨r.2⟩)

/-- Modelled from the spec: result type of the navigation operations —
`empty` for a zero-element list, `notFound` when no node matches the
reference predicate, `found` with the neighbour's payload otherwise. -/
inductive NavResult (α : Type) where
  | empty : NavResult α
  | notFound : NavResult α
  | found : α → NavResult α
deriving DecidableEq

/-- Modelled from the spec: the single internal "find node index by
predicate" helper shared by the lookup-based public operations. -/
def findIdxP {α : Type} (p : α → Bool) : List α → Option Nat
  | [] => none
  | x :: xs =>
    if p x then some 0
    else (findIdxP p xs).map (fun i => i + 1)

/-- Modelled from the spec: `get_next(reference_predicate)` locates the
node matching the predicate and returns the payload of its `next`
neighbour, wrapping circularly past the end. -/
def CDLL.getNext {α : Type} (l : CDLL α) (p : α → Bool) : NavResult α :=
  match l.elems with
  | [] => .empty
  | x :: xs =>
    match findIdxP p (x :: xs) with
    | none => .notFound
    | some i => .found ((x :: xs).getD (nextPos (x :: xs).length i) x)

/-- Modelled from the spec: `get_previous(reference_predicate)`, the
backward analogue of `get_next`. -/
def CDLL.getPrevious {α : Type} (l : CDLL α) (p : α → Bool) : NavResult α :=
  match l.elems with
  | [] => .empty
  | x :: xs =>
    match findIdxP p (x :: xs) with
    | none => .notFound
    | some i => .found ((x :: xs).getD (prevPos (x :: xs).length i) x)

/-- Modelled from the spec: the public mutating operations of the CDLL,
used to quantify over every reachable list state. -/
inductive CDLLOp (α : Type) where
  | insBeg : α → CDLLOp α
  | insEnd : α → CDLLOp α
  | insSorted : (α → Nat) → α → CDLLOp α
  | del : (α → Bool) → CDLLOp α

/-- Modelled from the spec: one public operation applied to a list state. -/
def CDLL.applyOp {α : Type} (l : CDLL α) : CDLLOp α → CDLL α
  | .insBeg v => l.insertAtBeginning v
  | .insEnd v => l.insertAtEnd v
  | .insSorted key v => l.insertSorted key v
  | .del p => (l.delete p).2

/-- Modelled from the spec: the list state reached from the empty list
by a sequence of public operations (the list object is created empty and
repopulated by ordinary insertions). -/
def runCDLL {α : Type} (ops : List (CDLLOp α)) : CDLL α :=
  ops.foldl CDLL.applyOp ⟨[]⟩

/-- Modelled from the spec: clamping of a reorder target index that lies
outside `[0, count)` to the nearest valid bound. -/
def clampPos (pos : Int) (count : Nat) : Nat :=
  if pos < 0 then 0 else min pos.toNat (count - 1)

/-- Modelled from the spec: insertion of a value before the node reached
by walking `i` steps from the head. -/
def insertAt {α : Type} : Nat → α → List α → List α
  | 0, v, l => v :: l
  | _ + 1, v, [] => [v]
  | n + 1, v, x :: xs => x :: insertAt n v xs

/-- Modelled from the spec: the backend favorites `reorder(id,
new_position)` — resolve the favorite by id (`none` reports NotFound),
`delete` it, clamp the target index to the valid range of the original
count, and re-insert positionally before the node at that index. -/
def reorderFavorite (tid : String) (pos : Int) (l : CDLL FavoriteTimezone) :
    Option (CDLL FavoriteTimezone) :=
  match l.elems.find? (fun f => f.id == tid) with
  | none => none
  | some v =>
    let rest := (deleteList (fun f => f.id == tid) l.elems).2
    some ⟨insertAt (clampPos pos l.size) v rest⟩

/-! ## Stopwatch context (contexts/stopwatch-context.tsx) -/

/-- State of the stopwatch provider: the running clock `time`, the clock
value at the previous lap `lastLapTime`, and the lap list `laps` (newest
first), exactly the React state of `StopwatchProvider`. -/
structure StopwatchState where
  time : Int
  lastLapTime : Int
  laps : List Lap
deriving DecidableEq

/-- Initial stopwatch state (`useState(0)`, `useState(0)`, `useState([])`). -/
def initialStopwatch : StopwatchState :=
  ⟨0, 0, []⟩

/-- The `addLap` callback from `stopwatch-context.tsx`: when the clock is positive it
computes `lapTime = time - lastLapTime`, prepends the new lap record to
the lap list and records `lastLapTime = time`; otherwise nothing happens. -/
def addLap (s : StopwatchState) : StopwatchState :=
  if 0 < s.time then
    let lt := s.time - s.lastLapTime
    { s with
        laps := ⟨s.laps.length + 1, s.time, lt⟩ :: s.laps,
        lastLapTime := s.time }
  else s

/-- The `reset` callback from `stopwatch-context.tsx`: stops the clock, zeroes the
times and clears every lap. -/
def resetStopwatch : StopwatchState :=
  initialStopwatch

/-- The interval callback of the provider: the running clock is set to
the elapsed time `t`. -/
def tickStopwatch (t : Int) (s : StopwatchState) : StopwatchState :=
  { s with time := t }

/-- Events that mutate the stopwatch state. -/
inductive SwOp where
  | tick : Int → SwOp
  | lap : SwOp
  | reset : SwOp

/-- One stopwatch event applied to a state. -/
def swStep (s : StopwatchState) : SwOp → StopwatchState
  | .tick t => tickStopwatch t s
  | .lap => addLap s
  | .reset => resetStopwatch

/-- The stopwatch state reached from the initial state by a sequence of
events. -/
def swRun (ops : List SwOp) : StopwatchState :=
  ops.foldl swStep initialStopwatch

/-- Each lap's `lapTime` equals its `time` minus the `time` of the lap
that follows it in the (newest-first) list, the oldest lap subtracting
zero. -/
def chainOkB : List Lap → Bool
  | [] => true
  | [l] => l.lapTime == l.time - 0
  | l :: l' :: rest => (l.lapTime == l.time - l'.time) && chainOkB (l' :: rest)

/-- Modelled from the spec: the backend `stopwatch_service` statistics
record (`LapStatistics` in `lib/api.ts`) — count, fastest, slowest,
average, and a total elapsed time that is the running clock value at the
most recent lap (the head of the newest-first enumeration), not a sum of
the lap deltas. -/
structure LapStatistics where
  total_laps : Nat
  fastest_lap : Option Lap
  slowest_lap : Option Lap
  average_lap_time : Int
  total_elapsed_time : Int
deriving DecidableEq

/-- Modelled from the spec: the single pass computing the statistics of
a newest-first lap list. -/
def lapStatistics (laps : List Lap) : LapStatistics :=
  { total_laps := laps.length
    fastest_lap := laps.foldl
      (fun acc l => match acc with
        | none => some l
        | some b => if l.lapTime < b.lapTime then some l else some b) none
    slowest_lap := laps.foldl
      (fun acc l => match acc with
        | none => some l
        | some b => if b.lapTime < l.lapTime then some l else some b) none
    average_lap_time :=
      if laps.length = 0 then 0
      else (laps.foldl (fun acc l => acc + l.lapTime) 0) / laps.length
    total_elapsed_time := ((laps.head?.map Lap.time).getD 0) }

/-! ## Timezone selector component (components/timezone-selector.tsx) -/

/-- The `DEFAULT_TIMEZONE` constant of `timezone-selector.tsx`. -/
def DEFAULT_TIMEZONE : FavoriteTimezone :=
  ⟨"colombia-bogota", "Colombia", "Bogotá", "UTC-5", -1⟩

/-- State of the timezone selector component: the favorites list, the id
of the active timezone and the error banner. -/
structure TzState where
  favorites : List FavoriteTimezone
  activeId : Option String
  errorMsg : Option String
deriving DecidableEq

/-- The `loadInitialData` loader from `timezone-selector.tsx`: the displayed list is
the default Bogotá timezone followed by the favorites returned by the
backend, and the active timezone is the saved one when it is present in
that list, the default otherwise. -/
def loadInitialData (backendFavs : List FavoriteTimezone)
    (savedActiveId : Option String) : TzState :=
  let allFavorites := DEFAULT_TIMEZONE :: backendFavs
  match savedActiveId with
  | some sid =>
    if allFavorites.any (fun f => f.id == sid) then
      ⟨allFavorites, some sid, none⟩
    else
      ⟨allFavorites, some DEFAULT_TIMEZONE.id, none⟩
  | none => ⟨allFavorites, some DEFAULT_TIMEZONE.id, none⟩

/-- The `handleAddFavorite` handler from `timezone-selector.tsx`, after the backend
responded with the new favorite `tz`: a duplicate is rejected with an
error banner; otherwise the new list is the default timezone, then the
previous favorites without the default, then the new favorite last, and
the new favorite becomes active. -/
def handleAddFavorite (tz : FavoriteTimezone) (s : TzState) : TzState :=
  if s.favorites.any (fun f => f.id == tz.id) then
    { s with errorMsg := some "Esta zona horaria ya está en favoritos" }
  else
    { favorites :=
        DEFAULT_TIMEZONE :: (s.favorites.filter (fun f => f.id != DEFAULT_TIMEZONE.id)) ++ [tz]
      activeId := some tz.id
      errorMsg := none }

/-- The `handleRemoveFavorite` handler from `timezone-selector.tsx`: removing the
default Bogotá timezone is refused with an error banner and no change;
otherwise the favorite is filtered out and, if it was the active
timezone, the active timezone falls back to the default. -/
def handleRemoveFavorite (tid : String) (s : TzState) : TzState :=
  if tid == DEFAULT_TIMEZONE.id then
    { s with errorMsg := some "No puedes eliminar la zona horaria de Colombia" }
  else
    let newFavorites := s.favorites.filter (fun f => f.id != tid)
    if s.activeId == some tid then
      { s with favorites := newFavorites, activeId := some DEFAULT_TIMEZONE.id }
    else
      { s with favorites := newFavorites }

/-- User-driven mutations of the favorites list after the initial load. -/
inductive TzOp where
  | add : FavoriteTimezone → TzOp
  | remove : String → TzOp

/-- One favorites mutation applied to the component state. -/
def tzStep (s : TzState) : TzOp → TzState
  | .add tz => handleAddFavorite tz s
  | .remove tid => handleRemoveFavorite tid s

/-- The component state reached from a load by a sequence of add/remove
operations. -/
def tzRun (backendFavs : List FavoriteTimezone) (savedActiveId : Option String)
    (ops : List TzOp) : TzState :=
  ops.foldl tzStep (loadInitialData backendFavs savedActiveId)

/-! ## Alarm context (contexts/alarm-context.tsx) -/

/-- The `dayNames` array of `shouldAlarmRingToday`, indexed by
`Date.getDay()` (0 = Sunday). -/
def dayNames : List String :=
  ["Dom", "Lun", "Mar", "Mié", "Jue", "Vie", "Sáb"]

/-- The `shouldAlarmRingToday` check from `alarm-context.tsx`: an alarm with an
empty day list rings on any day; otherwise it rings exactly when its day
list contains the current weekday's name. -/
def shouldAlarmRingToday (a : Alarm) (currentDay : Nat) : Bool :=
  if a.days.isEmpty then true
  else a.days.contains (dayNames.getD currentDay "")

/-- The dismissal key `` `${alarm.id}-${currentTime}` `` used by the
alarm context. -/
def alarmKey (a : Alarm) (currentTime : String) : String :=
  toString a.id ++ "-" ++ currentTime

/-- The scanning loop of `checkAlarms` over the enabled alarms: skip the
alarms dismissed at this minute, trigger the first remaining one whose
time string equals the current time and which should ring today, and
stop there. -/
def findTrigger (dismissed : List String) (currentTime : String)
    (currentDay : Nat) : List Alarm → Option Alarm
  | [] => none
  | a :: rest =>
    if dismissed.contains (alarmKey a currentTime) then
      findTrigger dismissed currentTime currentDay rest
    else if a.time == currentTime && shouldAlarmRingToday a currentDay then
      some a
    else
      findTrigger dismissed currentTime currentDay rest

/-- The `checkAlarms` function from `alarm-context.tsx`, as the function of the values
it observes: the current time string `currentTime` (formatted `HH:MM` in
the mapped active timezone, local time otherwise), the previously checked
minute `lastChecked`, the current weekday number, the currently ringing
alarm, the dismissal keys, and the alarm list fetched from the backend.
It returns the alarm that starts ringing, if any: nothing when the minute
was already checked or an alarm is already ringing, otherwise the first
enabled, non-dismissed alarm matching time and day. -/
def checkAlarms (alarms : List Alarm) (ringing : Option Alarm)
    (currentTime lastChecked : String) (currentDay : Nat)
    (dismissed : List String) : Option Alarm :=
  if currentTime == lastChecked then none
  else if ringing.isSome then none
  else findTrigger dismissed currentTime currentDay (alarms.filter (fun a => a.enabled))

/-- The 17 characters of the fixed part of the snooze-label pattern
`(Pospuesta desde HH:MM)`. -/
def patHead : List Char :=
  ['(', 'P', 'o', 's', 'p', 'u', 'e', 's', 't', 'a', ' ', 'd', 'e', 's', 'd', 'e', ' ']

/-- One attempt of the regex `\(Pospuesta desde (\d\d:\d\d)\)` at the
start of the character list: on success it yields the captured `HH:MM`
characters and the characters following the pattern. -/
def matchAt (l : List Char) : Option (List Char × List Char) :=
  if l.take 17 = patHead then
    match l.drop 17 with
    | h1 :: h2 :: c :: m1 :: m2 :: cp :: rest =>
      if h1.isDigit && h2.isDigit && c == ':' && m1.isDigit && m2.isDigit && cp == ')' then
        some ([h1, h2, ':', m1, m2], rest)
      else none
    | _ => none
  else none

/-- Leftmost match of `label.match(/\(Pospuesta desde (\d\d:\d\d)\)/)`,
returning the captured original time. -/
def findPat : List Char → Option (List Char)
  | [] => none
  | c :: rest =>
    match matchAt (c :: rest) with
    | some r => some r.1
    | none => findPat rest

/-- The replacement `label.replace(/ \(Pospuesta desde \d\d:\d\d\)/, '')`: the leftmost
occurrence of the space-prefixed pattern is removed, the rest of the
label is kept. -/
def removePat : List Char → List Char
  | [] => []
  | c :: rest =>
    if c == ' ' then
      match matchAt rest with
      | some r => r.2
      | none => c :: removePat rest
    else c :: removePat rest

/-- Two-digit zero padding of `padStart(2, "0")`. -/
def pad2 (n : Nat) : String :=
  if n < 10 then "0" ++ toString n else toString n

/-- Rendering of a minutes-since-midnight value as `HH:MM`. -/
def fmtTime (m : Nat) : String :=
  pad2 (m / 60) ++ ":" ++ pad2 (m % 60)

/-- The `snoozeAlarm` handler from `alarm-context.tsx`, acting on the ringing alarm:
the current wall clock `now` (minutes since midnight) is advanced by five
minutes and becomes the alarm's new time; the label becomes the original
label (existing snooze suffix stripped) followed by
`" (Pospuesta desde T)"` where `T` is the time captured from an existing
suffix when present, the alarm's own time otherwise; the alarm stays
enabled. -/
def snoozeAlarm (now : Nat) (a : Alarm) : Alarm :=
  let snoozeTime := fmtTime ((now + 5) % 1440)
  let originalTime :=
    match findPat a.label.data with
    | some t => String.mk t
    | none => a.time
  let originalLabel := String.mk (removePat a.label.data)
  { a with
      time := snoozeTime
      label := originalLabel ++ " (Pospuesta desde " ++ originalTime ++ ")"
      enabled := true }

/-- The restoring update of `triggerAlarm` from `alarm-context.tsx`: when
the label of the alarm that just rang carries a snooze suffix, the alarm
is written back with the captured original time and the stripped label;
otherwise it is left unchanged. -/
def triggerRestore (a : Alarm) : Alarm :=
  match findPat a.label.data with
  | some t =>
    { a with
        time := String.mk t
        label := String.mk (removePat a.label.data)
        enabled := true }
  | none => a

/-- The five characters `HH:MM` of a well-formed time-of-day string. -/
def timeShapeB : List Char → Bool
  | [h1, h2, c, m1, m2] =>
    h1.isDigit && h2.isDigit && c == ':' && m1.isDigit && m2.isDigit
  | _ => false

/-- Relation between an original alarm and any of its snoozed versions:
identity fields are untouched, the alarm is enabled, and the label is the
original label followed by the snooze suffix recording the original
time. -/
def snoozedFrom (a s : Alarm) : Prop :=
  s.id = a.id ∧ s.days = a.days ∧ s.created_at = a.created_at ∧
  s.enabled = true ∧
  s.label = a.label ++ " (Pospuesta desde " ++ a.time ++ ")"

/-- Modelled from the spec: the numeric value of a decimal digit
character, used by the fixed-format time key. -/
def digitVal (c : Char) : Nat :=
  c.toNat - 48

/-- Modelled from the spec: the numeric sort key of the alarm adapter —
the scheduled time-of-day `HH:MM` read as minutes since midnight, so
that comparison is numeric rather than lexicographic. -/
def timeKey (s : String) : Nat :=
  match s.data with
  | [h1, h2, _, m1, m2] =>
    (digitVal h1 * 10 + digitVal h2) * 60 + (digitVal m1 * 10 + digitVal m2)
  | _ => 0

/-- Modelled from the spec: a sequence of "create alarm" operations,
each an `insert_sorted` keyed by the scheduled time-of-day, starting
from the empty list. -/
def runAlarmInserts (vs : List Alarm) : CDLL Alarm :=
  vs.foldl (fun l v => l.insertSorted (fun a => timeKey a.time) v) ⟨[]⟩

/-! ## Theorems -/

/-- C1: For every sequence of add-lap operations, the enumerated lap
collection is in reverse-chronological order: each newly added lap
becomes the first element of the lap list and all previously recorded
laps follow it in their prior relative order; in particular, taking
three laps at clock values A, B, C in that call order yields laps whose
totals enumerate as [C, B, A]. -/
theorem laps_reverse_chronological :
    (∀ s : StopwatchState, 0 < s.time →
      (addLap s).laps =
        ⟨s.laps.length + 1, s.time, s.time - s.lastLapTime⟩ :: s.laps) ∧
    (∀ a b c : Int, 0 < a → 0 < b → 0 < c →
      ((swRun [SwOp.tick a, SwOp.lap, SwOp.tick b, SwOp.lap,
               SwOp.tick c, SwOp.lap]).laps.map Lap.time) = [c, b, a]) := by
  constructor
  · intro s h
    simp [addLap, h]
  · intro a b c ha hb hc
    simp [swRun, swStep, tickStopwatch, initialStopwatch, addLap, ha, hb, hc]

/-- Witness for C1 at concrete inputs. -/
theorem laps_reverse_chronological_witness :
    (addLap ⟨5, 2, []⟩).laps = [⟨1, 5, 3⟩] ∧
    ((swRun [SwOp.tick 1, SwOp.lap, SwOp.tick 2, SwOp.lap,
             SwOp.tick 3, SwOp.lap]).laps.map Lap.time) = [3, 2, 1] := by
  constructor
  · rw [laps_reverse_chronological.1 ⟨5, 2, []⟩ (by decide)]
    decide
  · exact laps_reverse_chronological.2 1 2 3 (by decide) (by decide) (by decide)

/-- C4: When a timezone that is not yet a favorite is added, the new
favorite becomes the last element of the favorites enumeration and the
relative order of all previously present favorites is unchanged (state
shape as maintained by the component: the default timezone heads the
list and appears nowhere else). -/
theorem add_favorite_appends_last
    (rest : List FavoriteTimezone) (tz : FavoriteTimezone) (s : TzState)
    (hshape : s.favorites = DEFAULT_TIMEZONE :: rest)
    (hrest : ∀ f ∈ rest, f.id ≠ DEFAULT_TIMEZONE.id)
    (hnew : ∀ f ∈ s.favorites, f.id ≠ tz.id) :
    (handleAddFavorite tz s).favorites = s.favorites ++ [tz] := by
  have hany : s.favorites.any (fun f => f.id == tz.id) = false := by
    simp only [List.any_eq_false]
    intro f hf
    simp [hnew f hf]
  rw [handleAddFavorite, hany]
  simp only [Bool.false_eq_true, if_false, hshape]
  rw [List.filter_cons]
  have hd : (DEFAULT_TIMEZONE.id != DEFAULT_TIMEZONE.id) = false := by simp
  rw [hd]
  simp only [if_false, Bool.false_eq_true]
  have hf : rest.filter (fun f => f.id != DEFAULT_TIMEZONE.id) = rest := by
    rw [List.filter_eq_self]
    intro f hf
    simp [hrest f hf]
  rw [hf]

/-- Witness for C4 at concrete inputs. -/
theorem add_favorite_appends_last_witness :
    (handleAddFavorite ⟨"japon-tokyo", "Japón", "Tokyo", "UTC+9", 0⟩
      ⟨[DEFAULT_TIMEZONE], some DEFAULT_TIMEZONE.id, none⟩).favorites =
      [DEFAULT_TIMEZONE] ++ [⟨"japon-tokyo", "Japón", "Tokyo", "UTC+9", 0⟩] := by
  exact add_favorite_appends_last [] ⟨"japon-tokyo", "Japón", "Tokyo", "UTC+9", 0⟩
    ⟨[DEFAULT_TIMEZONE], some DEFAULT_TIMEZONE.id, none⟩ rfl
    (by intro f hf; simp at hf) (by decide)

/-- The default timezone stays at the head of the favorites list across
any single add or remove operation. -/
theorem tzStep_head (s : TzState) (op : TzOp)
    (h : s.favorites.head? = some DEFAULT_TIMEZONE) :
    (tzStep s op).favorites.head? = some DEFAULT_TIMEZONE := by
  cases op with
  | add tz =>
    rw [tzStep, handleAddFavorite]
    by_cases hc : s.favorites.any (fun f => f.id == tz.id) = true
    · rw [if_pos hc]
      exact h
    · rw [if_neg hc]
      rfl
  | remove tid =>
    rw [tzStep, handleRemoveFavorite]
    by_cases hc : (tid == DEFAULT_TIMEZONE.id) = true
    · rw [if_pos hc]
      exact h
    · rw [if_neg hc]
      obtain ⟨t, ht⟩ : ∃ t, s.favorites = DEFAULT_TIMEZONE :: t := by
        cases hf : s.favorites with
        | nil => rw [hf] at h; simp at h
        | cons x t =>
          rw [hf] at h
          simp only [List.head?_cons, Option.some.injEq] at h
          exact ⟨t, by rw [h]⟩
      have hk : (DEFAULT_TIMEZONE.id != tid) = true := by
        simp only [bne_iff_ne, ne_eq]
        intro he
        exact hc (by simp [he])
      by_cases ha : (s.activeId == some tid) = true
      · rw [if_pos ha]
        simp [ht, List.filter_cons, hk]
      · rw [if_neg ha]
        simp [ht, List.filter_cons, hk]

/-- The default timezone stays at the head of the favorites list across
any sequence of add or remove operations. -/
theorem tzFold_head (ops : List TzOp) (s : TzState)
    (h : s.favorites.head? = some DEFAULT_TIMEZONE) :
    (ops.foldl tzStep s).favorites.head? = some DEFAULT_TIMEZONE := by
  induction ops generalizing s with
  | nil => exact h
  | cons op rest ih =>
    rw [List.foldl_cons]
    exact ih (tzStep s op) (tzStep_head s op h)

/-- C10: The default Bogotá timezone is the first element of the
displayed favorites after the initial load and after any sequence of add
and remove operations; a remove request targeting it leaves the state
unchanged except for an error banner; and removing the favorite that is
currently active resets the active timezone to the default. -/
theorem default_timezone_invariant :
    (∀ (backendFavs : List FavoriteTimezone) (savedActiveId : Option String)
        (ops : List TzOp),
      (tzRun backendFavs savedActiveId ops).favorites.head? = some DEFAULT_TIMEZONE) ∧
    (∀ s : TzState,
      (handleRemoveFavorite DEFAULT_TIMEZONE.id s).favorites = s.favorites ∧
      (handleRemoveFavorite DEFAULT_TIMEZONE.id s).activeId = s.activeId ∧
      (handleRemoveFavorite DEFAULT_TIMEZONE.id s).errorMsg =
        some "No puedes eliminar la zona horaria de Colombia") ∧
    (∀ (s : TzState) (tid : String), tid ≠ DEFAULT_TIMEZONE.id →
      s.activeId = some tid →
      (handleRemoveFavorite tid s).activeId = some DEFAULT_TIMEZONE.id) := by
  refine ⟨?_, ?_, ?_⟩
  · intro backendFavs savedActiveId ops
    apply tzFold_head
    cases savedActiveId with
    | none => rfl
    | some sid =>
      by_cases hc : (DEFAULT_TIMEZONE :: backendFavs).any (fun f => f.id == sid) = true
      · simp [loadInitialData, hc]
      · simp [loadInitialData, hc]
  · intro s
    rw [handleRemoveFavorite, if_pos (by simp)]
    exact ⟨rfl, rfl, rfl⟩
  · intro s tid hne hact
    rw [handleRemoveFavorite, if_neg (by simp [hne]), if_pos (by simp [hact])]

/-- Witness for C10 at concrete inputs. -/
theorem default_timezone_invariant_witness :
    (tzRun [] none [TzOp.add ⟨"japon-tokyo", "Japón", "Tokyo", "UTC+9", 0⟩,
        TzOp.remove "japon-tokyo"]).favorites.head? = some DEFAULT_TIMEZONE ∧
    (handleRemoveFavorite DEFAULT_TIMEZONE.id
      ⟨[DEFAULT_TIMEZONE], some DEFAULT_TIMEZONE.id, none⟩).favorites =
      [DEFAULT_TIMEZONE] ∧
    (handleRemoveFavorite "japon-tokyo"
      ⟨[DEFAULT_TIMEZONE], some "japon-tokyo", none⟩).activeId =
      some DEFAULT_TIMEZONE.id := by
  refine ⟨?_, ?_, ?_⟩
  · exact default_timezone_invariant.1 [] none
      [TzOp.add ⟨"japon-tokyo", "Japón", "Tokyo", "UTC+9", 0⟩,
       TzOp.remove "japon-tokyo"]
  · exact (default_timezone_invariant.2.1
      ⟨[DEFAULT_TIMEZONE], some DEFAULT_TIMEZONE.id, none⟩).1
  · exact default_timezone_invariant.2.2
      ⟨[DEFAULT_TIMEZONE], some "japon-tokyo", none⟩ "japon-tokyo"
      (by decide) rfl

/-- Membership in the result of the sorted-insertion walk. -/
theorem mem_insertSortedList {α : Type} (key : α → Nat) (v b : α) :
    ∀ l : List α, b ∈ insertSortedList key v l ↔ b = v ∨ b ∈ l := by
  intro l
  induction l with
  | nil => simp [insertSortedList]
  | cons x xs ih =>
    rw [insertSortedList]
    by_cases hc : key v < key x
    · rw [if_pos hc]
      simp [or_comm, or_assoc, or_left_comm]
    · rw [if_neg hc]
      simp only [List.mem_cons, ih]
      tauto

/-- The sorted-insertion walk preserves sortedness by the key. -/
theorem sorted_insertSortedList {α : Type} (key : α → Nat) (v : α) :
    ∀ l : List α, List.Sorted (fun a b => key a ≤ key b) l →
      List.Sorted (fun a b => key a ≤ key b) (insertSortedList key v l) := by
  intro l
  induction l with
  | nil =>
    intro _
    simp [insertSortedList]
  | cons x xs ih =>
    intro hs
    rw [List.sorted_cons] at hs
    obtain ⟨hx, hxs⟩ := hs
    rw [insertSortedList]
    by_cases hc : key v < key x
    · rw [if_pos hc]
      rw [List.sorted_cons]
      constructor
      · intro b hb
        rcases List.mem_cons.mp hb with hb | hb
        · rw [hb]; exact Nat.le_of_lt hc
        · exact Nat.le_trans (Nat.le_of_lt hc) (hx b hb)
      · rw [List.sorted_cons]
        exact ⟨hx, hxs⟩
    · rw [if_neg hc]
      rw [List.sorted_cons]
      constructor
      · intro b hb
        rcases (mem_insertSortedList key v b xs).mp hb with hb | hb
        · rw [hb]; exact Nat.le_of_not_lt hc
        · exact hx b hb
      · exact ih hxs

/-- C2: After any sequence of alarm creations and no deletions — each
creation an `insert_sorted` keyed by the scheduled time-of-day read
numerically as minutes since midnight — the enumeration of all alarms is
non-decreasing under that numeric key: every creation places the new
alarm at its sorted position. -/
theorem alarms_sorted_by_time (vs : List Alarm) :
    List.Sorted (fun a b => timeKey a.time ≤ timeKey b.time)
      (runAlarmInserts vs).getAll := by
  suffices h : ∀ (l : CDLL Alarm),
      List.Sorted (fun a b => timeKey a.time ≤ timeKey b.time) l.getAll →
      List.Sorted (fun a b => timeKey a.time ≤ timeKey b.time)
        (vs.foldl (fun l v => l.insertSorted (fun a => timeKey a.time) v) l).getAll by
    exact h ⟨[]⟩ (by simp [CDLL.getAll])
  induction vs with
  | nil =>
    intro l hl
    exact hl
  | cons v rest ih =>
    intro l hl
    rw [List.foldl_cons]
    exact ih (l.insertSorted (fun a => timeKey a.time) v)
      (sorted_insertSortedList (fun a => timeKey a.time) v l.getAll hl)

/-- Iterating the `next` link `k` times from position `i` of an `n`-ring
lands on position `(i + k) mod n`. -/
theorem nextPos_iterate (n : Nat) (hn : 0 < n) :
    ∀ (k i : Nat), i < n → Nat.iterate (nextPos n) k i = (i + k) % n := by
  intro k
  induction k with
  | zero =>
    intro i hi
    simp [Nat.mod_eq_of_lt hi]
  | succ k ih =>
    intro i hi
    rw [Function.iterate_succ_apply]
    have hlt : nextPos n i < n := Nat.mod_lt _ hn
    rw [ih (nextPos n i) hlt]
    rw [nextPos, Nat.mod_add_mod]
    congr 1
    omega

/-- The `previous` link undoes the `next` link on an `n`-ring. -/
theorem prevPos_nextPos (n i : Nat) (hi : i < n) :
    prevPos n (nextPos n i) = i := by
  rw [nextPos, prevPos]
  rcases Nat.lt_or_ge (i + 1) n with h | h
  · rw [Nat.mod_eq_of_lt h]
    have he : i + 1 + n - 1 = i + n := by omega
    rw [he, Nat.add_mod_right]
    exact Nat.mod_eq_of_lt hi
  · have he : i + 1 = n := by omega
    rw [he, Nat.mod_self]
    have hz : 0 + n - 1 = i := by omega
    rw [hz]
    exact Nat.mod_eq_of_lt hi

/-- The `next` link undoes the `previous` link on an `n`-ring. -/
theorem nextPos_prevPos (n i : Nat) (hi : i < n) :
    nextPos n (prevPos n i) = i := by
  rw [nextPos, prevPos]
  rcases Nat.eq_zero_or_pos i with h | h
  · subst h
    have he : 0 + n - 1 = n - 1 := by omega
    rw [he]
    have hm : (n - 1) % n = n - 1 := Nat.mod_eq_of_lt (by omega)
    rw [hm]
    have he2 : n - 1 + 1 = n := by omega
    rw [he2, Nat.mod_self]
  · have he : i + n - 1 = (i - 1) + n := by omega
    rw [he, Nat.add_mod_right]
    have hm : (i - 1) % n = i - 1 := Nat.mod_eq_of_lt (by omega)
    rw [hm]
    have he2 : i - 1 + 1 = i := by omega
    rw [he2]
    exact Nat.mod_eq_of_lt hi

/-- C5: After every public operation of the circular doubly linked list
— i.e. for every state reachable by a sequence of insert and delete
operations — if the list is non-empty then following the `next` link
exactly `count` times from any node returns to that node (ring closure),
the `next` and `previous` links are mutually inverse on every node (link
symmetry), a single-element list has a head whose `next` and `previous`
both point to itself, and an empty enumeration is exactly a count of
zero. -/
theorem cdll_ring_invariants (α : Type) (ops : List (CDLLOp α)) :
    ((runCDLL ops).size ≠ 0 → ∀ i, i < (runCDLL ops).size →
      Nat.iterate (nextPos (runCDLL ops).size) (runCDLL ops).size i = i ∧
      prevPos (runCDLL ops).size (nextPos (runCDLL ops).size i) = i ∧
      nextPos (runCDLL ops).size (prevPos (runCDLL ops).size i) = i) ∧
    ((runCDLL ops).size = 1 →
      nextPos (runCDLL ops).size 0 = 0 ∧ prevPos (runCDLL ops).size 0 = 0) ∧
    ((runCDLL ops).getAll.head? = none ↔ (runCDLL ops).size = 0) := by
  refine ⟨?_, ?_, ?_⟩
  · intro hn i hi
    have hpos : 0 < (runCDLL ops).size := Nat.pos_of_ne_zero hn
    refine ⟨?_, prevPos_nextPos _ i hi, nextPos_prevPos _ i hi⟩
    rw [nextPos_iterate _ hpos _ i hi, Nat.add_mod_right]
    exact Nat.mod_eq_of_lt hi
  · intro h1
    rw [h1]
    exact ⟨rfl, rfl⟩
  · rw [CDLL.getAll, CDLL.size]
    simp [List.head?_eq_none_iff, List.length_eq_zero]

/-- Witness for C5 at a concrete operation sequence. -/
theorem cdll_ring_invariants_witness :
    Nat.iterate (nextPos (runCDLL [CDLLOp.insBeg 7, CDLLOp.insEnd 9]).size)
      (runCDLL [CDLLOp.insBeg 7, CDLLOp.insEnd 9]).size 1 = 1 ∧
    (runCDLL ([CDLLOp.insBeg 7] : List (CDLLOp Nat))).getAll.head? ≠ none := by
  constructor
  · exact ((cdll_ring_invariants Nat [CDLLOp.insBeg 7, CDLLOp.insEnd 9]).1
      (by decide) 1 (by decide)).1
  · intro h
    have := ((cdll_ring_invariants Nat [CDLLOp.insBeg 7]).2.2).mp h
    simp [runCDLL, CDLL.applyOp, CDLL.insertAtBeginning, CDLL.size] at this

/-- Indexing with `getD` at the final index returns the value reported by `getLast?`. -/
theorem getD_at_last {α : Type} (d : α) :
    ∀ (l : List α) (w : α), l.getLast? = some w → l.getD (l.length - 1) d = w := by
  intro l
  induction l with
  | nil =>
    intro w hw
    simp at hw
  | cons x xs ih =>
    intro w hw
    cases xs with
    | nil =>
      simp at hw
      simp [hw]
    | cons y t =>
      rw [List.getLast?_cons_cons] at hw
      have hlen : (x :: y :: t).length - 1 = (y :: t).length := by
        simp
      rw [hlen]
      have hstep : (x :: y :: t).getD (y :: t).length d =
          (y :: t).getD ((y :: t).length - 1) d := by
        simp [List.getD]
      rw [hstep]
      exact ih w hw

/-- C6: `get_next` applied to the last element of `get_all()` wraps to
the first element, `get_previous` applied to the first wraps to the
last, both operations on a one-element list return that single payload,
and on an empty list both report `empty` rather than failing. -/
theorem navigation_wraps (α : Type) (p : α → Bool) (elems : List α) (v w : α) :
    (CDLL.getNext ⟨([] : List α)⟩ p = NavResult.empty ∧
     CDLL.getPrevious ⟨([] : List α)⟩ p = NavResult.empty) ∧
    (∀ a : α, p a = true →
      CDLL.getNext ⟨[a]⟩ p = NavResult.found a ∧
      CDLL.getPrevious ⟨[a]⟩ p = NavResult.found a) ∧
    (findIdxP p elems = some (elems.length - 1) → elems.head? = some v →
      CDLL.getNext ⟨elems⟩ p = NavResult.found v) ∧
    (findIdxP p elems = some 0 → elems.getLast? = some w →
      CDLL.getPrevious ⟨elems⟩ p = NavResult.found w) := by
  refine ⟨⟨rfl, rfl⟩, ?_, ?_, ?_⟩
  · intro a ha
    constructor
    · simp [CDLL.getNext, findIdxP, ha, nextPos]
    · simp [CDLL.getPrevious, findIdxP, ha, prevPos]
  · intro hidx hhead
    cases elems with
    | nil => simp [findIdxP] at hidx
    | cons x xs =>
      simp only [List.head?_cons, Option.some.injEq] at hhead
      rw [CDLL.getNext]
      simp only [hidx]
      have hwrap : nextPos (x :: xs).length ((x :: xs).length - 1) = 0 := by
        rw [nextPos]
        have he : (x :: xs).length - 1 + 1 = (x :: xs).length := by simp
        rw [he, Nat.mod_self]
      rw [hwrap, hhead]
      rfl
  · intro hidx hlast
    cases elems with
    | nil => simp [findIdxP] at hidx
    | cons x xs =>
      rw [CDLL.getPrevious]
      simp only [hidx]
      have hwrap : prevPos (x :: xs).length 0 = (x :: xs).length - 1 := by
        rw [prevPos]
        have he : 0 + (x :: xs).length - 1 = (x :: xs).length - 1 := by omega
        rw [he]
        exact Nat.mod_eq_of_lt (by simp)
      rw [hwrap, getD_at_last x (x :: xs) w hlast]

/-- Witness for C6 at concrete inputs. -/
theorem navigation_wraps_witness :
    CDLL.getNext ⟨[10, 20, 30]⟩ (fun x => x == 30) = NavResult.found 10 ∧
    CDLL.getPrevious ⟨[10, 20, 30]⟩ (fun x => x == 10) = NavResult.found 30 ∧
    CDLL.getNext ⟨[5]⟩ (fun x => x == 5) = NavResult.found 5 := by
  refine ⟨?_, ?_, ?_⟩
  · exact (navigation_wraps Nat (fun x => x == 30) [10, 20, 30] 10 30).2.2.1
      (by decide) (by decide)
  · exact (navigation_wraps Nat (fun x => x == 10) [10, 20, 30] 10 30).2.2.2
      (by decide) (by decide)
  · exact ((navigation_wraps Nat (fun x => x == 5) [] 5 5).2.1 5 (by decide)).1

/-- Clamping is idempotent: a clamped index is already in range. -/
theorem clampPos_idem (pos : Int) (n : Nat) :
    clampPos (Int.ofNat (clampPos pos n)) n = clampPos pos n := by
  by_cases h : pos < 0
  · have hc : clampPos pos n = 0 := by rw [clampPos, if_pos h]
    rw [hc, clampPos, if_neg (by decide)]
    simp
  · have hc : clampPos pos n = min pos.toNat (n - 1) := by rw [clampPos, if_neg h]
    rw [hc, clampPos]
    have h0 : ¬ Int.ofNat (min pos.toNat (n - 1)) < 0 := by simp
    rw [if_neg h0]
    have h1 : (Int.ofNat (min pos.toNat (n - 1))).toNat = min pos.toNat (n - 1) := by
      simp
      omega
    rw [h1, min_assoc, min_self]

/-- The clamped index is a valid position of a non-empty list. -/
theorem clampPos_lt (pos : Int) (n : Nat) (hn : 0 < n) :
    clampPos pos n < n := by
  by_cases h : pos < 0 <;> simp [clampPos, h] <;> omega

/-- C7: A reorder whose target index lies outside `[0, count)` does not
fail: the index is clamped to the nearest valid bound (so reordering
with any index equals reordering with its clamped value, which is a
valid position) and the reorder is performed; and moving the third of
three favorites F1, F2, F3 to position 0 yields the enumeration
[F3, F1, F2]. -/
theorem reorder_clamps_out_of_range :
    (∀ (l : CDLL FavoriteTimezone) (tid : String) (pos : Int)
        (v : FavoriteTimezone),
      l.elems.find? (fun f => f.id == tid) = some v →
      (reorderFavorite tid pos l).isSome = true ∧
      reorderFavorite tid pos l =
        reorderFavorite tid (Int.ofNat (clampPos pos l.size)) l ∧
      clampPos pos l.size < l.size) ∧
    reorderFavorite "f3" 0
        ⟨[⟨"f1", "Francia", "Paris", "UTC+1", 0⟩,
          ⟨"f2", "Japón", "Tokyo", "UTC+9", 1⟩,
          ⟨"f3", "Perú", "Lima", "UTC-5", 2⟩]⟩ =
      some ⟨[⟨"f3", "Perú", "Lima", "UTC-5", 2⟩,
             ⟨"f1", "Francia", "Paris", "UTC+1", 0⟩,
             ⟨"f2", "Japón", "Tokyo", "UTC+9", 1⟩]⟩ := by
  constructor
  · intro l tid pos v hfound
    obtain ⟨elems⟩ := l
    have hn : 0 < (CDLL.mk elems).size := by
      rw [CDLL.size]
      cases helems : elems with
      | nil =>
        rw [helems] at hfound
        simp at hfound
      | cons x xs => simp
    refine ⟨?_, ?_, clampPos_lt pos _ hn⟩
    · simp [reorderFavorite, hfound]
    · simp only [reorderFavorite, hfound]
      rw [clampPos_idem]
  · decide

/-- Witness for C7 at a concrete out-of-range position. -/
theorem reorder_clamps_out_of_range_witness :
    (reorderFavorite "f1" 99 ⟨[⟨"f1", "Francia", "Paris", "UTC+1", 0⟩]⟩).isSome
      = true :=
  (reorder_clamps_out_of_range.1 ⟨[⟨"f1", "Francia", "Paris", "UTC+1", 0⟩]⟩
    "f1" 99 ⟨"f1", "Francia", "Paris", "UTC+1", 0⟩ (by decide)).1

/-- One stopwatch event preserves the lap-chain invariant: the lap deltas
chain through the recorded totals and `lastLapTime` is the total of the
most recent lap (zero when there is none). -/
theorem swStep_inv (s : StopwatchState) (op : SwOp)
    (h1 : chainOkB s.laps = true)
    (h2 : s.lastLapTime = ((s.laps.head?.map Lap.time).getD 0)) :
    chainOkB (swStep s op).laps = true ∧
    (swStep s op).lastLapTime =
      (((swStep s op).laps.head?.map Lap.time).getD 0) := by
  cases op with
  | tick t => exact ⟨h1, h2⟩
  | reset => exact ⟨rfl, rfl⟩
  | lap =>
    show chainOkB (addLap s).laps = true ∧
      (addLap s).lastLapTime = (((addLap s).laps.head?.map Lap.time).getD 0)
    rw [addLap]
    by_cases hc : 0 < s.time
    · rw [if_pos hc]
      constructor
      · cases hl : s.laps with
        | nil =>
          rw [hl] at h2
          simp only [List.head?_nil, Option.map_none', Option.getD_none] at h2
          simp [chainOkB, h2]
        | cons o rest =>
          rw [hl] at h2
          simp only [List.head?_cons, Option.map_some', Option.getD_some] at h2
          rw [hl] at h1
          simp [chainOkB, h2, h1]
      · rfl
    · rw [if_neg hc]
      exact ⟨h1, h2⟩

/-- The lap-chain invariant holds in every reachable stopwatch state. -/
theorem swRun_inv (ops : List SwOp) :
    chainOkB (swRun ops).laps = true ∧
    (swRun ops).lastLapTime = (((swRun ops).laps.head?.map Lap.time).getD 0) := by
  suffices h : ∀ (l : List SwOp) (s : StopwatchState),
      chainOkB s.laps = true →
      s.lastLapTime = ((s.laps.head?.map Lap.time).getD 0) →
      chainOkB (l.foldl swStep s).laps = true ∧
      (l.foldl swStep s).lastLapTime =
        (((l.foldl swStep s).laps.head?.map Lap.time).getD 0) by
    exact h ops initialStopwatch rfl rfl
  intro l
  induction l with
  | nil => intro s h1 h2; exact ⟨h1, h2⟩
  | cons op rest ih =>
    intro s h1 h2
    rw [List.foldl_cons]
    obtain ⟨g1, g2⟩ := swStep_inv s op h1 h2
    exact ih (swStep s op) g1 g2

/-- C3: In every reachable stopwatch state, each lap's total equals the
running clock at the moment the lap was taken — a freshly added lap
records `time` as its total and `time` minus the previous lap's total
(zero for the first lap) as its delta, and every stored lap's delta
chains through the recorded totals in the same way — and consequently
the statistics' total elapsed time is the last (most recent) lap's
total, not an independently accumulated sum of deltas. -/
theorem lap_total_is_clock (ops : List SwOp) :
    chainOkB (swRun ops).laps = true ∧
    (0 < (swRun ops).time →
      ((addLap (swRun ops)).laps.head?.map Lap.time) = some (swRun ops).time ∧
      ((addLap (swRun ops)).laps.head?.map Lap.lapTime) =
        some ((swRun ops).time -
          (((swRun ops).laps.head?.map Lap.time).getD 0))) ∧
    (lapStatistics (swRun ops).laps).total_elapsed_time =
      (((swRun ops).laps.head?.map Lap.time).getD 0) := by
  obtain ⟨h1, h2⟩ := swRun_inv ops
  refine ⟨h1, ?_, rfl⟩
  intro ht
  rw [addLap, if_pos ht]
  simp [h2]

/-- Witness for C3 at a concrete event sequence. -/
theorem lap_total_is_clock_witness :
    chainOkB (swRun [SwOp.tick 4, SwOp.lap, SwOp.tick 9]).laps = true ∧
    ((addLap (swRun [SwOp.tick 4, SwOp.lap, SwOp.tick 9])).laps.head?.map
      Lap.lapTime) = some 5 := by
  have h := lap_total_is_clock [SwOp.tick 4, SwOp.lap, SwOp.tick 9]
  refine ⟨h.1, ?_⟩
  have h2 := (h.2.1 (by decide)).2
  rw [h2]
  decide

/-- Any alarm returned by the scanning loop belongs to the scanned list,
matches the current time string exactly, and passes the day check. -/
theorem findTrigger_some (dismissed : List String) (ct : String) (cd : Nat) :
    ∀ (l : List Alarm) (a : Alarm),
      findTrigger dismissed ct cd l = some a →
      a ∈ l ∧ a.time = ct ∧ shouldAlarmRingToday a cd = true := by
  intro l
  induction l with
  | nil => intro a h; simp [findTrigger] at h
  | cons x rest ih =>
    intro a h
    rw [findTrigger] at h
    by_cases h1 : dismissed.contains (alarmKey x ct) = true
    · rw [if_pos h1] at h
      obtain ⟨hm, ht, hr⟩ := ih a h
      exact ⟨List.mem_cons_of_mem x hm, ht, hr⟩
    · rw [if_neg h1] at h
      by_cases h2 : (x.time == ct && shouldAlarmRingToday x cd) = true
      · rw [if_pos h2] at h
        obtain ⟨hbeq, hring⟩ := Bool.and_eq_true_iff.mp h2
        cases h
        exact ⟨List.mem_cons_self x rest, eq_of_beq hbeq, hring⟩
      · rw [if_neg h2] at h
        obtain ⟨hm, ht, hr⟩ := ih a h
        exact ⟨List.mem_cons_of_mem x hm, ht, hr⟩

/-- With no dismissed alarms, the scanning loop returns the head of the
sublist of alarms matching time and day. -/
theorem findTrigger_no_dismissed (ct : String) (cd : Nat) :
    ∀ l : List Alarm,
      findTrigger [] ct cd l =
        (l.filter (fun x => x.time == ct && shouldAlarmRingToday x cd)).head? := by
  intro l
  induction l with
  | nil => rfl
  | cons x rest ih =>
    rw [findTrigger, List.filter_cons]
    by_cases h2 : (x.time == ct && shouldAlarmRingToday x cd) = true
    · rw [if_pos h2, if_pos h2]
      simp [List.contains]
    · rw [if_neg h2]
      have hc : (([] : List String).contains (alarmKey x ct)) = false := rfl
      rw [hc]
      simp only [Bool.false_eq_true, if_false]
      rw [ih]
      have : ¬ ((x.time == ct && shouldAlarmRingToday x cd) = true) := h2
      simp only [this, if_false, Bool.false_eq_true]

/-- C8: During a periodic alarm check, an alarm can start ringing only
if it is enabled, its stored time string is character-equal to the
current `HH:MM` time string, and its day list is empty (rings any day)
or contains the current weekday's name; at most one alarm is triggered
per check — with no dismissals pending it is exactly the first matching
alarm in enumeration order — and nothing is triggered while another
alarm is already ringing. -/
theorem check_alarms_conditions :
    (∀ (alarms : List Alarm) (ringing : Option Alarm) (ct lc : String)
        (cd : Nat) (dismissed : List String) (a : Alarm),
      checkAlarms alarms ringing ct lc cd dismissed = some a →
        a.enabled = true ∧ a.time = ct ∧
        (a.days = [] ∨ (dayNames.getD cd "") ∈ a.days)) ∧
    (∀ (alarms : List Alarm) (r : Alarm) (ct lc : String) (cd : Nat)
        (dismissed : List String),
      checkAlarms alarms (some r) ct lc cd dismissed = none) ∧
    (∀ (alarms : List Alarm) (ct lc : String) (cd : Nat), ct ≠ lc →
      checkAlarms alarms none ct lc cd [] =
        (alarms.filter (fun x =>
          x.enabled && (x.time == ct) && shouldAlarmRingToday x cd)).head?) := by
  refine ⟨?_, ?_, ?_⟩
  · intro alarms ringing ct lc cd dismissed a h
    rw [checkAlarms] at h
    by_cases h1 : (ct == lc) = true
    · rw [if_pos h1] at h; cases h
    · rw [if_neg h1] at h
      by_cases h2 : ringing.isSome = true
      · rw [if_pos h2] at h; cases h
      · rw [if_neg h2] at h
        obtain ⟨hm, ht, hr⟩ := findTrigger_some dismissed ct cd _ a h
        obtain ⟨hmem, hen⟩ := List.mem_filter.mp hm
        refine ⟨hen, ht, ?_⟩
        rw [shouldAlarmRingToday] at hr
        by_cases hd : a.days.isEmpty = true
        · exact Or.inl (List.isEmpty_iff.mp hd)
        · rw [if_neg hd] at hr
          right
          exact List.mem_of_elem_eq_true hr
  · intro alarms r ct lc cd dismissed
    rw [checkAlarms]
    by_cases h1 : (ct == lc) = true
    · rw [if_pos h1]
    · rw [if_neg h1, if_pos (by rfl)]
  · intro alarms ct lc cd hne
    rw [checkAlarms, if_neg (by simp [hne]), if_neg (by simp)]
    rw [findTrigger_no_dismissed, List.filter_filter]
    congr 1
    apply List.filter_congr
    intro x _
    cases hx1 : x.enabled <;> cases hx2 : (x.time == ct) <;>
      cases hx3 : shouldAlarmRingToday x cd <;> rfl

/-- Witness for C8 at concrete inputs. -/
theorem check_alarms_conditions_witness :
    ((⟨1, "07:30", "Despertar", true, [], ""⟩ : Alarm).enabled = true ∧
     (⟨1, "07:30", "Despertar", true, [], ""⟩ : Alarm).time = "07:30" ∧
     ((⟨1, "07:30", "Despertar", true, [], ""⟩ : Alarm).days = [] ∨
       (dayNames.getD 1 "") ∈ (⟨1, "07:30", "Despertar", true, [], ""⟩ : Alarm).days)) ∧
    checkAlarms [⟨1, "07:30", "Despertar", true, [], ""⟩]
      (some ⟨2, "09:00", "Otra", true, [], ""⟩) "07:30" "00:00" 1 [] = none ∧
    checkAlarms [⟨1, "07:30", "Despertar", true, [], ""⟩] none "07:30" "00:00" 1 []
      = some ⟨1, "07:30", "Despertar", true, [], ""⟩ := by
  refine ⟨?_, ?_, ?_⟩
  · exact check_alarms_conditions.1 [⟨1, "07:30", "Despertar", true, [], ""⟩]
      none "07:30" "00:00" 1 [] ⟨1, "07:30", "Despertar", true, [], ""⟩ (by decide)
  · exact check_alarms_conditions.2.1 [⟨1, "07:30", "Despertar", true, [], ""⟩]
      ⟨2, "09:00", "Otra", true, [], ""⟩ "07:30" "00:00" 1 []
  · rw [check_alarms_conditions.2.2 [⟨1, "07:30", "Despertar", true, [], ""⟩]
      "07:30" "00:00" 1 (by decide)]
    decide

/-- The pattern attempt fails on any list not starting with `(`. -/
theorem matchAt_cons_ne (c : Char) (l : List Char) (h : c ≠ '(') :
    matchAt (c :: l) = none := by
  have hneq : (c :: l).take 17 ≠ patHead := by
    intro heq
    have h0 := congrArg List.head? heq
    rw [show (17 : Nat) = 16 + 1 from rfl, List.take_succ_cons,
        List.head?_cons, show patHead.head? = some '(' from rfl] at h0
    exact h (by injection h0)
  unfold matchAt
  rw [if_neg hneq]

/-- The pattern attempt succeeds at the head of a well-formed pattern. -/
theorem matchAt_pat (h1 h2 m1 m2 : Char) (rest : List Char)
    (d1 : h1.isDigit = true) (d2 : h2.isDigit = true)
    (d3 : m1.isDigit = true) (d4 : m2.isDigit = true) :
    matchAt (patHead ++ h1 :: h2 :: ':' :: m1 :: m2 :: ')' :: rest) =
      some ([h1, h2, ':', m1, m2], rest) := by
  have hlen : patHead.length = 17 := rfl
  have ht : (patHead ++ h1 :: h2 :: ':' :: m1 :: m2 :: ')' :: rest).take 17 = patHead := by
    rw [← hlen, List.take_left]
  have hd : (patHead ++ h1 :: h2 :: ':' :: m1 :: m2 :: ')' :: rest).drop 17 =
      h1 :: h2 :: ':' :: m1 :: m2 :: ')' :: rest := by
    rw [← hlen, List.drop_left]
  unfold matchAt
  rw [if_pos ht, hd]
  simp [d1, d2, d3, d4]

/-- Scanning skips any prefix that contains no `(` character. -/
theorem findPat_append (base l : List Char) (hb : ∀ c ∈ base, c ≠ '(') :
    findPat (base ++ l) = findPat l := by
  induction base with
  | nil => rfl
  | cons c b ih =>
    rw [List.cons_append, findPat,
        matchAt_cons_ne c (b ++ l) (hb c (List.mem_cons_self c b))]
    exact ih (fun x hx => hb x (List.mem_cons_of_mem c hx))

/-- A label without `(` contains no pattern occurrence. -/
theorem findPat_no_paren (base : List Char) (hb : ∀ c ∈ base, c ≠ '(') :
    findPat base = none := by
  have h := findPat_append base [] hb
  rw [List.append_nil] at h
  rw [h]
  rfl

/-- Scanning finds the pattern sitting at the head of the list. -/
theorem findPat_pat (h1 h2 m1 m2 : Char) (rest : List Char)
    (d1 : h1.isDigit = true) (d2 : h2.isDigit = true)
    (d3 : m1.isDigit = true) (d4 : m2.isDigit = true) :
    findPat (patHead ++ h1 :: h2 :: ':' :: m1 :: m2 :: ')' :: rest) =
      some [h1, h2, ':', m1, m2] := by
  have hm := matchAt_pat h1 h2 m1 m2 rest d1 d2 d3 d4
  rw [show patHead ++ h1 :: h2 :: ':' :: m1 :: m2 :: ')' :: rest =
        '(' :: (patHead.tail ++ h1 :: h2 :: ':' :: m1 :: m2 :: ')' :: rest)
      from rfl] at hm ⊢
  rw [findPat, hm]

/-- Removal leaves a label without `(` unchanged. -/
theorem removePat_id (base : List Char) (hb : ∀ c ∈ base, c ≠ '(') :
    removePat base = base := by
  induction base with
  | nil => rfl
  | cons c b ih =>
    have hrest : matchAt b = none := by
      cases b with
      | nil => rfl
      | cons d t =>
        exact matchAt_cons_ne d t
          (hb d (List.mem_cons_of_mem c (List.mem_cons_self d t)))
    have htail := ih (fun x hx => hb x (List.mem_cons_of_mem c hx))
    rw [removePat]
    by_cases hs : (c == ' ') = true
    · rw [if_pos hs, hrest, htail]
    · rw [if_neg hs, htail]

/-- Removal strips exactly the space-prefixed pattern appended after a
label without `(`. -/
theorem removePat_append_pat (h1 h2 m1 m2 : Char)
    (d1 : h1.isDigit = true) (d2 : h2.isDigit = true)
    (d3 : m1.isDigit = true) (d4 : m2.isDigit = true) :
    ∀ base : List Char, (∀ c ∈ base, c ≠ '(') →
      removePat (base ++ ' ' :: (patHead ++ h1 :: h2 :: ':' :: m1 :: m2 :: [')'])) =
        base := by
  intro base
  induction base with
  | nil =>
    intro _
    rw [List.nil_append, removePat, if_pos (by rfl),
        matchAt_pat h1 h2 m1 m2 [] d1 d2 d3 d4]
  | cons c b ih =>
    intro hb
    have htail := ih (fun x hx => hb x (List.mem_cons_of_mem c hx))
    have hmn : matchAt (b ++ ' ' :: (patHead ++ h1 :: h2 :: ':' :: m1 :: m2 :: [')'])) =
        none := by
      cases b with
      | nil =>
        rw [List.nil_append]
        exact matchAt_cons_ne ' ' _ (by decide)
      | cons d t =>
        rw [List.cons_append]
        exact matchAt_cons_ne d _
          (hb d (List.mem_cons_of_mem c (List.mem_cons_self d t)))
    rw [List.cons_append, removePat]
    by_cases hs : (c == ' ') = true
    · rw [if_pos hs, hmn, htail]
    · rw [if_neg hs, htail]

/-- Shape of a well-formed `HH:MM` character list. -/
theorem timeShapeB_spec (T : List Char) (h : timeShapeB T = true) :
    ∃ h1 h2 m1 m2, T = [h1, h2, ':', m1, m2] ∧ h1.isDigit = true ∧
      h2.isDigit = true ∧ m1.isDigit = true ∧ m2.isDigit = true := by
  rcases T with _ | ⟨a, _ | ⟨b, _ | ⟨c, _ | ⟨d, _ | ⟨e, _ | ⟨f, t⟩⟩⟩⟩⟩⟩ <;>
    simp [timeShapeB] at h
  obtain ⟨⟨⟨⟨ha, hbd⟩, hc⟩, hd⟩, he⟩ := h
  exact ⟨a, b, d, e, by rw [hc], ha, hbd, hd, he⟩

/-- The first snooze of a clean alarm produces a snoozed version of it. -/
theorem snoozedFrom_snooze (a : Alarm) (now : Nat)
    (hb : ∀ c ∈ a.label.data, c ≠ '(') :
    snoozedFrom a (snoozeAlarm now a) := by
  have hf : findPat a.label.data = none := findPat_no_paren _ hb
  have hr : removePat a.label.data = a.label.data := removePat_id _ hb
  refine ⟨rfl, rfl, rfl, rfl, ?_⟩
  show String.mk (removePat a.label.data) ++ " (Pospuesta desde " ++
      (match findPat a.label.data with
       | some t => String.mk t
       | none => a.time) ++ ")" = a.label ++ " (Pospuesta desde " ++ a.time ++ ")"
  rw [hf, hr]

/-- On a snoozed label the scan captures the original time and removal
recovers the original label. -/
theorem snoozed_label_scan (a s : Alarm)
    (hb : ∀ c ∈ a.label.data, c ≠ '(')
    (ht : timeShapeB a.time.data = true)
    (hlab : s.label = a.label ++ " (Pospuesta desde " ++ a.time ++ ")") :
    findPat s.label.data = some a.time.data ∧
    removePat s.label.data = a.label.data := by
  obtain ⟨h1, h2, m1, m2, hT, d1, d2, d3, d4⟩ := timeShapeB_spec a.time.data ht
  have hdata : s.label.data =
      a.label.data ++ ' ' :: (patHead ++ h1 :: h2 :: ':' :: m1 :: m2 :: [')']) := by
    rw [hlab, String.data_append, String.data_append, String.data_append,
        show (" (Pospuesta desde " : String).data = ' ' :: patHead from rfl,
        show (")" : String).data = [')'] from rfl, hT]
    simp
  constructor
  · rw [hdata,
        show a.label.data ++ ' ' :: (patHead ++ h1 :: h2 :: ':' :: m1 :: m2 :: [')'])
          = (a.label.data ++ [' ']) ++ (patHead ++ h1 :: h2 :: ':' :: m1 :: m2 :: ')' :: [])
        from by simp]
    rw [findPat_append _ _ ?noparen]
    · rw [findPat_pat h1 h2 m1 m2 [] d1 d2 d3 d4, hT]
    case noparen =>
      intro c hc
      rcases List.mem_append.mp hc with h | h
      · exact hb c h
      · simp at h
        rw [h]
        decide
  · rw [hdata]
    exact removePat_append_pat h1 h2 m1 m2 d1 d2 d3 d4 a.label.data hb

/-- A further snooze of a snoozed alarm keeps it a snoozed version of the
original: the suffix keeps referring to the original time. -/
theorem snoozedFrom_step (a s : Alarm) (now : Nat)
    (hb : ∀ c ∈ a.label.data, c ≠ '(')
    (ht : timeShapeB a.time.data = true)
    (hs : snoozedFrom a s) :
    snoozedFrom a (snoozeAlarm now s) := by
  obtain ⟨hid, hdays, hct, hen, hlab⟩ := hs
  obtain ⟨hf, hr⟩ := snoozed_label_scan a s hb ht hlab
  refine ⟨hid, hdays, hct, rfl, ?_⟩
  show String.mk (removePat s.label.data) ++ " (Pospuesta desde " ++
      (match findPat s.label.data with
       | some t => String.mk t
       | none => s.time) ++ ")" = a.label ++ " (Pospuesta desde " ++ a.time ++ ")"
  rw [hf, hr]

/-- Ringing a snoozed alarm writes back exactly the original record. -/
theorem trigger_of_snoozed (a s : Alarm)
    (hb : ∀ c ∈ a.label.data, c ≠ '(')
    (ht : timeShapeB a.time.data = true)
    (he : a.enabled = true)
    (hs : snoozedFrom a s) :
    triggerRestore s = a := by
  obtain ⟨hid, hdays, hct, hen, hlab⟩ := hs
  obtain ⟨hf, hr⟩ := snoozed_label_scan a s hb ht hlab
  show (match findPat s.label.data with
    | some t =>
      { s with
          time := String.mk t
          label := String.mk (removePat s.label.data)
          enabled := true }
    | none => s) = a
  rw [hf, hr]
  obtain ⟨aid, atime, alab, aen, adays, acat⟩ := a
  simp only [Alarm.mk.injEq]
  exact ⟨hid, trivial, trivial, he.symm, hdays, hct⟩

/-- Any number of further snoozes keeps the alarm a snoozed version of
the original. -/
theorem snoozedFrom_foldl (a : Alarm)
    (hb : ∀ c ∈ a.label.data, c ≠ '(')
    (ht : timeShapeB a.time.data = true) :
    ∀ (ms : List Nat) (s : Alarm), snoozedFrom a s →
      snoozedFrom a (ms.foldl (fun x n => snoozeAlarm n x) s) := by
  intro ms
  induction ms with
  | nil => intro s hs; exact hs
  | cons m t ih =>
    intro s hs
    rw [List.foldl_cons]
    exact ih _ (snoozedFrom_step a s m hb ht hs)

/-- C9: Snoozing a ringing alarm rewrites its time to the current time
plus five minutes and its label to the original label plus
`" (Pospuesta desde T)"` where `T` is taken from an existing suffix when
present — so after any non-empty sequence of snoozes the suffix still
records the alarm's original time — and ringing the snoozed alarm
restores the original alarm record (time, label and all other fields):
the snooze/ring pair round-trips. Stated for an enabled alarm whose
label contains no `(` character and whose time is a well-formed `HH:MM`
string. -/
theorem snooze_trigger_roundtrip (a : Alarm)
    (hb : ∀ c ∈ a.label.data, c ≠ '(')
    (ht : timeShapeB a.time.data = true)
    (he : a.enabled = true)
    (ns : List Nat) (hne : ns ≠ []) :
    (∀ n : Nat, (snoozeAlarm n a).time = fmtTime ((n + 5) % 1440)) ∧
    (ns.foldl (fun s n => snoozeAlarm n s) a).label =
      a.label ++ " (Pospuesta desde " ++ a.time ++ ")" ∧
    triggerRestore (ns.foldl (fun s n => snoozeAlarm n s) a) = a := by
  have hsf : snoozedFrom a (ns.foldl (fun s n => snoozeAlarm n s) a) := by
    cases ns with
    | nil => exact absurd rfl hne
    | cons m t =>
      rw [List.foldl_cons]
      exact snoozedFrom_foldl a hb ht t _ (snoozedFrom_snooze a m hb)
  exact ⟨fun n => rfl, hsf.2.2.2.2, trigger_of_snoozed a _ hb ht he hsf⟩

/-- Witness for C9 at a concrete alarm snoozed twice. -/
theorem snooze_trigger_roundtrip_witness :
    triggerRestore ([100, 200].foldl (fun s n => snoozeAlarm n s)
        ⟨1, "07:30", "Despertar", true, [], ""⟩) =
      ⟨1, "07:30", "Despertar", true, [], ""⟩ :=
  (snooze_trigger_roundtrip ⟨1, "07:30", "Despertar", true, [], ""⟩
    (by decide) (by decide) rfl [100, 200] (by decide)).2.2

end Reloj
